import Mathlib

/-! Shallow embedding of the Levenberg-Marquardt fitting core of
`FittingWidget` (files `fittingdatadialog.h`, `wt_fittingwidget.h`).

Modelling conventions:
* C++ `double` values are modelled as exact rationals `ℚ`; the claims under
  study are structural (ordering, branching, cardinality, control flow), not
  about floating-point rounding.
* The transcendental library functions `log`, `log10`, `pow(10, ·)` on
  doubles are modelled as abstract function parameters `lnF log10F pow10F :
  ℚ → ℚ`; every theorem holds for all instantiations.
* `QMap<QString,double>` is modelled as an association list with
  first-match lookup and in-place replacement on insert.
* The external forward model `ModelManager::calculateTheoreticalCurve` is an
  opaque oracle `ParamMap → List ℚ → List ℚ × List ℚ × List ℚ`
  returning (times, pressures, derivatives).
* The Eigen LDLT solve in `solveLinearSystem` is an external library call,
  modelled as an abstract solver function parameter.
-/

set_option maxRecDepth 8000

/-- Association-list model of `QMap<QString, double>`. -/
def ParamMap := List (String × ℚ)

instance : DecidableEq ParamMap := by
  unfold ParamMap
  infer_instance

instance : Inhabited ParamMap := ⟨([] : List (String × ℚ))⟩

/-- First-match lookup, the read part of `QMap`. -/
def pmLookup : ParamMap → String → Option ℚ
  | [], _ => none
  | (k, v) :: rest, key => if k = key then some v else pmLookup rest key

/-- Read access `QMap::value(key)` / guarded `operator[]`: absent keys read as `0.0`. -/
def pmGet (m : ParamMap) (key : String) : ℚ := (pmLookup m key).getD 0

/-- Membership test `QMap::contains(key)`. -/
def pmContains (m : ParamMap) (key : String) : Bool := (pmLookup m key).isSome

/-- Write access `QMap::insert` / `operator[]`: replace the first binding or append. -/
def pmSet : ParamMap → String → ℚ → ParamMap
  | [], key, v => [(key, v)]
  | (k, w) :: rest, key, v =>
      if k = key then (key, v) :: rest else (k, w) :: pmSet rest key v

/-- One tunable quantity of the parameter table
(`FitParameter`: name, current value, fit-inclusion flag, bounds). -/
structure FitParameter where
  name : String
  value : ℚ
  isFit : Bool
  min : ℚ
  max : ℚ
  deriving DecidableEq, Repr

instance : Inhabited FitParameter := ⟨⟨"", 0, false, 0, 0⟩⟩

/-- The `kf`/`km` ordering repair (`fittingdatadialog.h` lines 1068-1070,
1149-1151, 1373-1375, 1415-1417): when both keys are present and
`kf <= km`, force `kf = km * 1.01`. -/
def repairKfKm (m : ParamMap) : ParamMap :=
  if pmContains m "kf" && pmContains m "km" then
    if pmGet m "kf" ≤ pmGet m "km" then
      pmSet m "kf" (pmGet m "km" * (101/100))
    else m
  else m

/-- The `omega1`/`omega2` ordering repair (lines 1071-1073, 1152-1154,
1376-1378): when both keys are present and `omega1 <= omega2`, force
`omega1 = omega2 * 1.01`. -/
def repairOmega (m : ParamMap) : ParamMap :=
  if pmContains m "omega1" && pmContains m "omega2" then
    if pmGet m "omega1" ≤ pmGet m "omega2" then
      pmSet m "omega1" (pmGet m "omega2" * (101/100))
    else m
  else m

/-- Recomputation of the derived length fraction `LfD = Lf / L` (lines
1076-1077, 1145-1146, 1179-1180, and the `updateDeps` lambda at 1257-1260):
applied only when `L` and `Lf` are both present and `L > 1e-9`. -/
def recomputeLfD (m : ParamMap) : ParamMap :=
  if pmContains m "L" && pmContains m "Lf" && decide ((1:ℚ)/10^9 < pmGet m "L") then
    pmSet m "LfD" (pmGet m "Lf" / pmGet m "L")
  else m

/-- Constraint repair applied to the initial parameter map at optimizer start
(lines 1067-1077): `kf/km`, then `omega1/omega2`, then `LfD`. -/
def initialRepair (m : ParamMap) : ParamMap :=
  recomputeLfD (repairOmega (repairKfKm m))

/-- Constraint repair applied to every trial parameter set inside the solver
(lines 1145-1154): `LfD`, then `kf/km`, then `omega1/omega2`. -/
def trialRepair (m : ParamMap) : ParamMap :=
  repairOmega (repairKfKm (recomputeLfD m))

/-- The `LfD` update at the head of `updateModelCurve` (lines 1367-1370):
unlike `recomputeLfD`, it zeroes `LfD` when the guard fails. -/
def updateCurveLfD (m : ParamMap) : ParamMap :=
  if pmContains m "L" && pmContains m "Lf" && decide ((1:ℚ)/10^9 < pmGet m "L") then
    pmSet m "LfD" (pmGet m "Lf" / pmGet m "L")
  else pmSet m "LfD" 0

/-- Constraint repair applied to every externally supplied parameter map in
`updateModelCurve` (lines 1367-1378): `LfD` (with zeroing), `kf/km`,
`omega1/omega2`. -/
def updateCurveRepair (m : ParamMap) : ParamMap :=
  repairOmega (repairKfKm (updateCurveLfD m))

/-- Non-const `QMap::operator[]` read: default-inserts `0.0` when the key is
absent, returning the read value together with the possibly grown map. -/
def pmRef (m : ParamMap) (key : String) : ℚ × ParamMap :=
  match pmLookup m key with
  | some v => (v, m)
  | none => (0, pmSet m key 0)

/-- One parameter override of the sensitivity sweep in `updateModelCurve`
(lines 1409-1417): set the swept key, recompute `LfD` when the swept key is
`L` or `Lf` (via unguarded `operator[]` reads), then re-apply only the
`kf`/`km` repair. -/
def sensitivityOverride (m : ParamMap) (key : String) (v : ℚ) : ParamMap :=
  let m1 := pmSet m key v
  let m2 :=
    if key = "L" || key = "Lf" then
      let pL := pmRef m1 "L"
      if (1:ℚ)/10^9 < pL.1 then
        let pLf := pmRef pL.2 "Lf"
        pmSet pLf.2 "LfD" (pLf.1 / pL.1)
      else pL.2
    else m1
  repairKfKm m2

/-! Section: Sampler: `FittingWidget::getLogSampledData` (lines 714-830) -/

/-- List indexing with the `0.0` default of out-of-range C-array semantics;
all in-code accesses are in range. -/
def getQ (l : List ℚ) (i : Nat) : ℚ := (l.get? i).getD 0

/-- The local sorting/dedup record of `getLogSampledData` (lines 721-725). -/
structure DataPoint where
  t : ℚ
  p : ℚ
  d : ℚ
  deriving DecidableEq, Repr

/-- The ordering `DataPoint::operator<` compares times (line 723). -/
def ptLE (a b : DataPoint) : Prop := a.t ≤ b.t

instance : DecidableRel ptLE := fun a b => inferInstanceAs (Decidable (a.t ≤ b.t))

instance : IsTotal DataPoint ptLE := ⟨fun a b => le_total a.t b.t⟩

instance : IsTrans DataPoint ptLE := ⟨fun _ _ _ hab hbc => le_trans hab hbc⟩

/-- The inner nearest-point scan (lines 749-757 and 800-809): advance the
cursor while the distance to the target keeps strictly decreasing, tracking
the best index; fuel `endIdx - ci` bounds the remaining steps exactly. -/
def scanBest (srcT : List ℚ) (endIdx : Nat) (target : ℚ) :
    Nat → Nat → ℚ → Nat → Nat
  | 0, _, _, best => best
  | fuel + 1, ci, minDiff, best =>
    if ci < endIdx then
      let diff := |getQ srcT ci - target|
      if diff < minDiff then scanBest srcT endIdx target fuel (ci + 1) diff ci
      else best
    else best

/-- The outer target loop (lines 745-762, 797-816): for each target time run
the scan from the cursor, reset the cursor to the best hit (`currentIndex =
bestIdx`), and record the hit. -/
def pickIndices (srcT : List ℚ) (endIdx : Nat) : List ℚ → Nat → List Nat
  | [], _ => []
  | target :: rest, ci =>
    let best := scanBest srcT endIdx target (endIdx - ci) ci ((10:ℚ)^30) ci
    best :: pickIndices srcT endIdx rest best

/-- Assemble the picked point, padding `p`/`d` with `0.0` when the source
vectors are shorter (lines 759-761, 812-814). -/
def mkPoint (srcT srcP srcD : List ℚ) (idx : Nat) : DataPoint :=
  ⟨getQ srcT idx,
   if idx < srcP.length then getQ srcP idx else 0,
   if idx < srcD.length then getQ srcD idx else 0⟩

/-- The default-mode picked points, before sorting and dedup (lines 729-762):
200 log-spaced targets between the first and last observed times, each
resolved by the monotone nearest-point scan. -/
def defaultPickedPoints (log10F pow10F : ℚ → ℚ)
    (srcT srcP srcD : List ℚ) : List DataPoint :=
  let targetCount : Nat := 200
  let tMin := if getQ srcT 0 ≤ (1:ℚ)/10^10 then (1:ℚ)/10^4 else getQ srcT 0
  let tMax := getQ srcT (srcT.length - 1)
  let logMin := log10F tMin
  let logMax := log10F tMax
  let step := (logMax - logMin) / ((targetCount : ℚ) - 1)
  let targets := (List.range targetCount).map (fun i => pow10F (logMin + (i : ℚ) * step))
  (pickIndices srcT srcT.length targets 0).map (mkPoint srcT srcP srcD)

/-- Binary search `std::lower_bound` on the time vector: index of the first element that is
not less than `x` (the source assumes time-sorted input). -/
def lowerBound (l : List ℚ) (x : ℚ) : Nat :=
  (l.findIdx? (fun v => decide (x ≤ v))).getD l.length

/-- Binary search `std::upper_bound` on the time vector: index of the first element
strictly greater than `x`. -/
def upperBound (l : List ℚ) (x : ℚ) : Nat :=
  (l.findIdx? (fun v => decide (x < v))).getD l.length

/-- One custom sampling interval (`SamplingInterval` in
`wt_fittingwidget.h`). -/
structure SamplingInt where
  tStart : ℚ
  tEnd : ℚ
  count : Int
  deriving DecidableEq, Repr

/-- Points picked for one custom interval (lines 771-817): skip non-positive
counts and empty clipped sub-ranges, then pick `count` log-spaced targets
inside the sub-range with the same monotone scan. -/
def intervalPoints (log10F pow10F : ℚ → ℚ)
    (srcT srcP srcD : List ℚ) (iv : SamplingInt) : List DataPoint :=
  if iv.count ≤ 0 then []
  else
    let idxStart := lowerBound srcT iv.tStart
    let idxEnd := upperBound srcT iv.tEnd
    if idxStart ≥ srcT.length ∨ idxStart ≥ idxEnd then []
    else
      let subMin0 := getQ srcT idxStart
      let subMax := getQ srcT (idxEnd - 1)
      let subMin := if subMin0 ≤ (1:ℚ)/10^10 then (1:ℚ)/10^4 else subMin0
      let logMin := log10F subMin
      let logMax := log10F subMax
      let cnt := iv.count.toNat
      let step := if 1 < iv.count then (logMax - logMin) / ((cnt : ℚ) - 1) else 0
      let targets := (List.range cnt).map
        (fun i => if iv.count = 1 then subMin else pow10F (logMin + (i : ℚ) * step))
      (pickIndices srcT idxEnd targets idxStart).filterMap
        (fun best => if best < srcT.length then some (mkPoint srcT srcP srcD best) else none)

/-- The tail of `std::unique` with tolerance equality (lines 724, 822): drop
each point whose time is within `1e-9` of the last kept point. -/
def dedupAux (last : DataPoint) : List DataPoint → List DataPoint
  | [] => []
  | x :: rest =>
    if |x.t - last.t| < (1:ℚ)/10^9 then dedupAux last rest
    else x :: dedupAux x rest

/-- Dedup `std::unique` over the sorted points: keep the first of every group. -/
def dedupPoints : List DataPoint → List DataPoint
  | [] => []
  | x :: rest => x :: dedupAux x rest

/-- The post-processing of both sampling modes (lines 820-829): sort by time
and remove near-duplicate times, then split back into three vectors.
(`std::sort` is modelled by insertion sort; ties carry no ordering
obligation for the properties below.) -/
def finalizePoints (pts : List DataPoint) : List ℚ × List ℚ × List ℚ :=
  let s := dedupPoints (List.insertionSort ptLE pts)
  (s.map DataPoint.t, s.map DataPoint.p, s.map DataPoint.d)

/-- Sampling configuration: the member state `m_isCustomSamplingEnabled` and
`m_customIntervals` consulted by `getLogSampledData`. -/
structure SamplingCfg where
  customEnabled : Bool
  intervals : List SamplingInt
  deriving Repr

/-- The sampler `FittingWidget::getLogSampledData` (lines 714-830) as a function from the
source series and sampling configuration to the reduced series. -/
def getLogSampledData (cfg : SamplingCfg) (log10F pow10F : ℚ → ℚ)
    (srcT srcP srcD : List ℚ) : List ℚ × List ℚ × List ℚ :=
  if srcT = [] then ([], [], [])
  else if ¬cfg.customEnabled then
    if srcT.length ≤ 200 then (srcT, srcP, srcD)
    else finalizePoints (defaultPickedPoints log10F pow10F srcT srcP srcD)
  else
    if cfg.intervals = [] then (srcT, srcP, srcD)
    else finalizePoints
      (cfg.intervals.foldl
        (fun acc iv => acc ++ intervalPoints log10F pow10F srcT srcP srcD iv) [])

/-- Strict time ordering with the `1e-9` separation used to state the
sampler ordering property. -/
def timeSep (a b : ℚ) : Prop := a < b ∧ (1:ℚ)/10^9 ≤ b - a

instance : DecidableRel timeSep := fun a b =>
  inferInstanceAs (Decidable (a < b ∧ (1:ℚ)/10^9 ≤ b - a))

/-- Relation `timeSep` lifted to picked points. -/
def ptSep (a b : DataPoint) : Prop := timeSep a.t b.t

instance : IsTrans DataPoint ptSep :=
  ⟨fun a b c hab hbc => ⟨lt_trans hab.1 hbc.1, by
    have h1 := hab.2
    have h2 := hbc.2
    have h9 : (0:ℚ) < 1/10^9 := by norm_num
    linarith⟩⟩

/-! Section: Residual evaluator: `FittingWidget::calculateResiduals` (lines
1193-1222) -/

/-- The opaque forward-model oracle
`ModelManager::calculateTheoreticalCurve(modelType, params, t)`, returning
(times, pressures, derivatives).  The `modelType` argument is folded into
the oracle itself. -/
def ModelFn := ParamMap → List ℚ → List ℚ × List ℚ × List ℚ

/-- The residual evaluator `FittingWidget::calculateResiduals` (lines 1193-1222): pressure residuals
in log space followed by derivative residuals, with a `1e-10` positivity
floor and the derivative count capped by the pressure count.  The
`!m_modelManager` null-check is dropped: the oracle argument always exists. -/
def calculateResiduals (model : ModelFn) (lnF : ℚ → ℚ) (params : ParamMap)
    (weight : ℚ) (t obsP obsD : List ℚ) : List ℚ :=
  if t = [] then []
  else
    let res := model params t
    let pCal := res.2.1
    let dpCal := res.2.2
    let wp := weight
    let wd := 1 - weight
    let count := min obsP.length pCal.length
    let rP := (List.range count).map fun i =>
      if (1:ℚ)/10^10 < getQ obsP i ∧ (1:ℚ)/10^10 < getQ pCal i then
        (lnF (getQ obsP i) - lnF (getQ pCal i)) * wp
      else 0
    let dCount := min (min obsD.length dpCal.length) count
    let rD := (List.range dCount).map fun i =>
      if (1:ℚ)/10^10 < getQ obsD i ∧ (1:ℚ)/10^10 < getQ dpCal i then
        (lnF (getQ obsD i) - lnF (getQ dpCal i)) * wd
      else 0
    rP ++ rD

/-- Sum of squares `FittingWidget::calculateSumSquaredError` (lines 1304-1308). -/
def calculateSumSquaredError (residuals : List ℚ) : ℚ :=
  residuals.foldl (fun sse v => sse + v * v) 0

/-! Section: Jacobian builder: `FittingWidget::computeJacobian` (lines 1228-1274) -/

/-- The loop body of `computeJacobian` for one free-parameter index `idx`
(lines 1236-1272): choose log- or linear-scale perturbation, build the two
perturbed maps, recompute `LfD` for the length pair, evaluate residuals at
both, and produce the central-difference column when both lengths match the
base residual count `nRes`, an all-zero column otherwise. -/
def jacobianColumn (model : ModelFn) (lnF log10F pow10F : ℚ → ℚ)
    (params : ParamMap) (nRes : Nat) (idx : Nat)
    (currentFitParams : List FitParameter) (weight : ℚ)
    (t obsP obsD : List ℚ) : List ℚ :=
  let p := (currentFitParams.get? idx).getD default
  let pName := p.name
  let val := pmGet params pName
  let isLog := (1:ℚ)/10^12 < val ∧ pName ≠ "S" ∧ pName ≠ "nf"
  let h : ℚ := if isLog then 1/100 else 1/10^4
  let pPlus0 := if isLog then pmSet params pName (pow10F (log10F val + h))
                else pmSet params pName (val + h)
  let pMinus0 := if isLog then pmSet params pName (pow10F (log10F val - h))
                 else pmSet params pName (val - h)
  let pPlus := if pName = "L" ∨ pName = "Lf" then recomputeLfD pPlus0 else pPlus0
  let pMinus := if pName = "L" ∨ pName = "Lf" then recomputeLfD pMinus0 else pMinus0
  let rPlus := calculateResiduals model lnF pPlus weight t obsP obsD
  let rMinus := calculateResiduals model lnF pMinus weight t obsP obsD
  if rPlus.length = nRes ∧ rMinus.length = nRes then
    (List.range nRes).map fun i => (getQ rPlus i - getQ rMinus i) / (2 * h)
  else List.replicate nRes 0

/-- The builder `FittingWidget::computeJacobian` (lines 1228-1274): the `nRes × nParams`
matrix whose column `j` is `jacobianColumn` at free index `fitIndices[j]`
(a column write happens only on matching residual lengths; the matrix is
initialized to zero). -/
def computeJacobian (model : ModelFn) (lnF log10F pow10F : ℚ → ℚ)
    (params : ParamMap) (baseResiduals : List ℚ) (fitIndices : List Nat)
    (currentFitParams : List FitParameter) (weight : ℚ)
    (t obsP obsD : List ℚ) : List (List ℚ) :=
  let nRes := baseResiduals.length
  let cols := fitIndices.map fun idx =>
    jacobianColumn model lnF log10F pow10F params nRes idx currentFitParams
      weight t obsP obsD
  (List.range nRes).map fun i => cols.map fun col => getQ col i

/-! Section: LM controller: `FittingWidget::runLevenbergMarquardtOptimization`
(lines 1042-1186) -/

/-- Free-parameter selection (lines 1045-1048): indices of parameters that
are fit-enabled and not the derived parameter `LfD`. -/
def fitIndicesOf (params : List FitParameter) : List Nat :=
  (List.range params.length).filter fun i =>
    ((params.get? i).getD default).isFit &&
      ((params.get? i).getD default).name != "LfD"

/-- Row-major matrix entry access with `0.0` default. -/
def matGet (m : List (List ℚ)) (i j : Nat) : ℚ := getQ ((m.get? i).getD []) j

/-- Gauss-Newton Hessian approximation `H = Jᵀ·J` (lines 1102-1114).  The
source accumulates the lower triangle and mirrors it to the upper; by
commutativity of multiplication every entry equals this symmetric sum. -/
def hessMat (J : List (List ℚ)) (nRes nParams : Nat) : List (List ℚ) :=
  (List.range nParams).map fun i => (List.range nParams).map fun j =>
    ((List.range nRes).map fun k => matGet J k i * matGet J k j).sum

/-- Gradient `g = Jᵀ·residuals` (lines 1102-1109). -/
def gradVec (J : List (List ℚ)) (residuals : List ℚ) (nParams : Nat) : List ℚ :=
  (List.range nParams).map fun i =>
    ((List.range residuals.length).map fun k => matGet J k i * getQ residuals k).sum

/-- Scale-aware damping `H_lm[i][i] += lambda * (1 + |H[i][i]|)` (lines
1119-1122). -/
def dampen (H : List (List ℚ)) (nParams : Nat) (lam : ℚ) : List (List ℚ) :=
  (List.range nParams).map fun i => (List.range nParams).map fun j =>
    if j = i then matGet H i j + lam * (1 + |matGet H i j|) else matGet H i j

/-- The trial parameter update (lines 1130-1143): log-scale parameters move
multiplicatively by `10^delta`, linear-scale additively, then each updated
value is clamped to the declared `[min, max]` bounds
(`qMax(min, qMin(newVal, max))`). -/
def applyDelta (log10F pow10F : ℚ → ℚ) (cur : ParamMap)
    (params : List FitParameter) (fitIndices : List Nat) (delta : List ℚ) :
    ParamMap :=
  (List.range fitIndices.length).foldl
    (fun tm i =>
      let pIdx := (fitIndices.get? i).getD 0
      let p := (params.get? pIdx).getD default
      let oldVal := pmGet cur p.name
      let isLog := (1:ℚ)/10^12 < oldVal ∧ p.name ≠ "S" ∧ p.name ≠ "nf"
      let newVal := if isLog then pow10F (log10F oldVal + getQ delta i)
                    else oldVal + getQ delta i
      let clamped := max p.min (min newVal p.max)
      pmSet tm p.name clamped)
    cur

/-- A full trial parameter set (lines 1130-1154): bounded update followed by
the trial-step constraint repair; the repair performs no re-clamping. -/
def buildTrial (log10F pow10F : ℚ → ℚ) (cur : ParamMap)
    (params : List FitParameter) (fitIndices : List Nat) (delta : List ℚ) :
    ParamMap :=
  trialRepair (applyDelta log10F pow10F cur params fitIndices delta)

/-- The per-run context of one optimization run: the external collaborators
(oracle, math library, linear solver, stop flag) and the run-constant data
(parameter table, free indices, weight, sampled fit subset). -/
structure LMCtx where
  model : ModelFn
  lnF : ℚ → ℚ
  log10F : ℚ → ℚ
  pow10F : ℚ → ℚ
  solveF : List (List ℚ) → List ℚ → List ℚ
  stopF : Nat → Bool
  params : List FitParameter
  fitIndices : List Nat
  weight : ℚ
  fitT : List ℚ
  fitP : List ℚ
  fitD : List ℚ

/-- The mutable optimizer state across iterations, extended with ghost
observation fields (accepted SSEs, evaluated trial maps, call counters)
recording the events the claims speak about. -/
structure LMState where
  curMap : ParamMap
  residuals : List ℚ
  sse : ℚ
  lam : ℚ
  accepted : List ℚ
  trialMaps : List ParamMap
  jacobianCalls : Nat
  trialEvals : Nat
  outerIters : Nat

/-- The damping-adjustment loop (lines 1116-1173, up to 5 attempts): damp,
solve, build the trial point, evaluate it; accept on strict SSE decrease
(shrinking lambda), otherwise grow lambda and retry.  Returns the state and
the `stepAccepted` flag. -/
def innerLoop (c : LMCtx) (H : List (List ℚ)) (g : List ℚ) :
    Nat → LMState → LMState × Bool
  | 0, st => (st, false)
  | fuel + 1, st =>
    let nP := c.fitIndices.length
    let Hlm := dampen H nP st.lam
    let negG := g.map Neg.neg
    let delta := c.solveF Hlm negG
    let trialMap := buildTrial c.log10F c.pow10F st.curMap c.params c.fitIndices delta
    let newRes := calculateResiduals c.model c.lnF trialMap c.weight c.fitT c.fitP c.fitD
    let newSSE := calculateSumSquaredError newRes
    let st1 := { st with trialEvals := st.trialEvals + 1,
                         trialMaps := st.trialMaps ++ [trialMap] }
    if newSSE < st.sse then
      ({ st1 with curMap := trialMap, residuals := newRes, sse := newSSE,
                  lam := st.lam / 10, accepted := st.accepted ++ [newSSE] }, true)
    else
      innerLoop c H g fuel { st1 with lam := st.lam * 10 }

/-- The outer iteration loop (lines 1088-1175): poll the stop flag, check
convergence (mean squared residual below `3e-3`), build the Jacobian and the
damped normal equations, run the inner loop, and stop early when no step was
accepted and lambda exceeds `1e10`. -/
def outerLoop (c : LMCtx) : Nat → Nat → LMState → LMState
  | 0, _, st => st
  | fuel + 1, iter, st =>
    if c.stopF iter then st
    else if st.residuals ≠ [] ∧ st.sse / (st.residuals.length : ℚ) < 3/1000 then st
    else
      let J := computeJacobian c.model c.lnF c.log10F c.pow10F st.curMap
                 st.residuals c.fitIndices c.params c.weight c.fitT c.fitP c.fitD
      let nRes := st.residuals.length
      let nP := c.fitIndices.length
      let H := hessMat J nRes nP
      let g := gradVec J st.residuals nP
      let st1 := { st with jacobianCalls := st.jacobianCalls + 1,
                           outerIters := st.outerIters + 1 }
      let res := innerLoop c H g 5 st1
      if ¬res.2 ∧ (10:ℚ)^10 < res.1.lam then res.1
      else outerLoop c fuel (iter + 1) res.1

/-- The external collaborators of a run, before the run-specific data is
known: oracle, math library, linear solver, stop flag, sampling config. -/
structure LMEnv where
  model : ModelFn
  lnF : ℚ → ℚ
  log10F : ℚ → ℚ
  pow10F : ℚ → ℚ
  solveF : List (List ℚ) → List ℚ → List ℚ
  stopF : Nat → Bool
  cfg : SamplingCfg

/-- Observable outcome of one `runLevenbergMarquardtOptimization` call:
the forward model's precision flag at return, whether `onFitFinished` was
signalled, the ghost traces, and the final parameter map. -/
structure LMOutcome where
  highPrecision : Bool
  finishedSignalled : Bool
  accepted : List ℚ
  jacobianCalls : Nat
  trialEvals : Nat
  outerIters : Nat
  initMap : ParamMap
  trialMaps : List ParamMap
  finalMap : ParamMap

/-- The controller `FittingWidget::runLevenbergMarquardtOptimization` (lines 1042-1186).
The precision flag is set `false` on entry (line 1043); the
no-free-parameter path (lines 1051-1054) returns with `onFitFinished`
invoked but without restoring the flag; the normal path restores the flag
(line 1177), recomputes `LfD` once more (lines 1179-1180) and signals
completion (line 1185).  The initial `currentSSE = 1e15` placeholder is
overwritten before first use and is elided. -/
def runLM (env : LMEnv) (params : List FitParameter) (weight : ℚ)
    (obsT obsP obsD : List ℚ) : LMOutcome :=
  let fitIndices := fitIndicesOf params
  if fitIndices.length = 0 then
    { highPrecision := false, finishedSignalled := true, accepted := [],
      jacobianCalls := 0, trialEvals := 0, outerIters := 0,
      initMap := ([] : ParamMap), trialMaps := [], finalMap := ([] : ParamMap) }
  else
    let fit := getLogSampledData env.cfg env.log10F env.pow10F obsT obsP obsD
    let raw : ParamMap := params.foldl (fun m p => pmSet m p.name p.value) ([] : ParamMap)
    let m0 := initialRepair raw
    let r0 := calculateResiduals env.model env.lnF m0 weight fit.1 fit.2.1 fit.2.2
    let sse0 := calculateSumSquaredError r0
    let c : LMCtx := { model := env.model, lnF := env.lnF, log10F := env.log10F,
                       pow10F := env.pow10F, solveF := env.solveF, stopF := env.stopF,
                       params := params, fitIndices := fitIndices, weight := weight,
                       fitT := fit.1, fitP := fit.2.1, fitD := fit.2.2 }
    let st0 : LMState := { curMap := m0, residuals := r0, sse := sse0, lam := 1/100,
                           accepted := [], trialMaps := [], jacobianCalls := 0,
                           trialEvals := 0, outerIters := 0 }
    let stF := outerLoop c 50 0 st0
    { highPrecision := true, finishedSignalled := true, accepted := stF.accepted,
      jacobianCalls := stF.jacobianCalls, trialEvals := stF.trialEvals,
      outerIters := stF.outerIters, initMap := m0, trialMaps := stF.trialMaps,
      finalMap := recomputeLfD stF.curMap }

/-- Shared concrete environment used by the closed instance theorems: a
trivial forward-model oracle, identity math functions, a zero solver, a
never-raised stop flag, and default sampling. -/
def envW : LMEnv :=
  { model := fun _ _ => ([], [], []), lnF := id, log10F := id, pow10F := id,
    solveF := fun _ _ => [], stopF := fun _ => false,
    cfg := { customEnabled := false, intervals := [] } }

/-! Section: Association-list map lemmas -/

theorem pmLookup_pmSet_self (m : ParamMap) (k : String) (v : ℚ) :
    pmLookup (pmSet m k v) k = some v := by
  induction m with
  | nil => simp [pmSet, pmLookup]
  | cons hd tl ih =>
    obtain ⟨k0, w⟩ := hd
    by_cases h : k0 = k
    · simp [pmSet, pmLookup, h]
    · simp [pmSet, pmLookup, h, ih]

theorem pmLookup_pmSet_ne (m : ParamMap) (k k' : String) (v : ℚ) (h : k ≠ k') :
    pmLookup (pmSet m k v) k' = pmLookup m k' := by
  induction m with
  | nil => simp [pmSet, pmLookup, h]
  | cons hd tl ih =>
    obtain ⟨k0, w⟩ := hd
    by_cases h0 : k0 = k
    · subst h0
      simp [pmSet, pmLookup, h]
    · simp [pmSet, pmLookup, h0, ih]

theorem pmGet_pmSet_self (m : ParamMap) (k : String) (v : ℚ) :
    pmGet (pmSet m k v) k = v := by
  simp [pmGet, pmLookup_pmSet_self]

theorem pmGet_pmSet_ne (m : ParamMap) (k k' : String) (v : ℚ) (h : k ≠ k') :
    pmGet (pmSet m k v) k' = pmGet m k' := by
  simp [pmGet, pmLookup_pmSet_ne m k k' v h]

theorem pmContains_pmSet_self (m : ParamMap) (k : String) (v : ℚ) :
    pmContains (pmSet m k v) k = true := by
  simp [pmContains, pmLookup_pmSet_self]

theorem pmContains_pmSet_ne (m : ParamMap) (k k' : String) (v : ℚ) (h : k ≠ k') :
    pmContains (pmSet m k v) k' = pmContains m k' := by
  simp [pmContains, pmLookup_pmSet_ne m k k' v h]

/-- Writing back the value already stored under a present key is a no-op. -/
theorem pmSet_get_of_contains (m : ParamMap) (k : String)
    (h : pmContains m k = true) : pmSet m k (pmGet m k) = m := by
  induction m with
  | nil => simp [pmContains, pmLookup] at h
  | cons hd tl ih =>
    obtain ⟨k0, w⟩ := hd
    by_cases h0 : k0 = k
    · subst h0
      simp [pmSet, pmGet, pmLookup]
    · have h' : pmContains tl k = true := by
        simpa [pmContains, pmLookup, h0] using h
      have hget : pmGet ((k0, w) :: tl) k = pmGet tl k := by
        simp [pmGet, pmLookup, h0]
      simp [pmSet, h0, hget, ih h']

/-! Section: Constraint repair lemmas -/

/-- The repair `repairKfKm` leaves every key other than `kf` unchanged. -/
theorem pmGet_repairKfKm_ne (m : ParamMap) (k : String) (h : k ≠ "kf") :
    pmGet (repairKfKm m) k = pmGet m k := by
  unfold repairKfKm
  split
  · split
    · exact pmGet_pmSet_ne m "kf" k _ (fun hk => h hk.symm)
    · rfl
  · rfl

theorem pmContains_repairKfKm_ne (m : ParamMap) (k : String) (h : k ≠ "kf") :
    pmContains (repairKfKm m) k = pmContains m k := by
  unfold repairKfKm
  split
  · split
    · exact pmContains_pmSet_ne m "kf" k _ (fun hk => h hk.symm)
    · rfl
  · rfl

/-- The repair `repairOmega` leaves every key other than `omega1` unchanged. -/
theorem pmGet_repairOmega_ne (m : ParamMap) (k : String) (h : k ≠ "omega1") :
    pmGet (repairOmega m) k = pmGet m k := by
  unfold repairOmega
  split
  · split
    · exact pmGet_pmSet_ne m "omega1" k _ (fun hk => h hk.symm)
    · rfl
  · rfl

theorem pmContains_repairOmega_ne (m : ParamMap) (k : String) (h : k ≠ "omega1") :
    pmContains (repairOmega m) k = pmContains m k := by
  unfold repairOmega
  split
  · split
    · exact pmContains_pmSet_ne m "omega1" k _ (fun hk => h hk.symm)
    · rfl
  · rfl

/-- The recomputation `recomputeLfD` leaves every key other than `LfD` unchanged. -/
theorem pmGet_recomputeLfD_ne (m : ParamMap) (k : String) (h : k ≠ "LfD") :
    pmGet (recomputeLfD m) k = pmGet m k := by
  unfold recomputeLfD
  split
  · exact pmGet_pmSet_ne m "LfD" k _ (fun hk => h hk.symm)
  · rfl

theorem pmContains_recomputeLfD_ne (m : ParamMap) (k : String) (h : k ≠ "LfD") :
    pmContains (recomputeLfD m) k = pmContains m k := by
  unfold recomputeLfD
  split
  · exact pmContains_pmSet_ne m "LfD" k _ (fun hk => h hk.symm)
  · rfl

theorem pmGet_updateCurveLfD_ne (m : ParamMap) (k : String) (h : k ≠ "LfD") :
    pmGet (updateCurveLfD m) k = pmGet m k := by
  unfold updateCurveLfD
  split
  · exact pmGet_pmSet_ne m "LfD" k _ (fun hk => h hk.symm)
  · exact pmGet_pmSet_ne m "LfD" k _ (fun hk => h hk.symm)

theorem pmContains_updateCurveLfD_ne (m : ParamMap) (k : String) (h : k ≠ "LfD") :
    pmContains (updateCurveLfD m) k = pmContains m k := by
  unfold updateCurveLfD
  split
  · exact pmContains_pmSet_ne m "LfD" k _ (fun hk => h hk.symm)
  · exact pmContains_pmSet_ne m "LfD" k _ (fun hk => h hk.symm)

/-- After `repairKfKm`, when both keys are present and `km` is positive,
the strict ordering `km < kf` holds. -/
theorem repairKfKm_orders (m : ParamMap)
    (hkf : pmContains m "kf" = true) (hkm : pmContains m "km" = true)
    (hpos : 0 < pmGet m "km") :
    pmGet (repairKfKm m) "km" < pmGet (repairKfKm m) "kf" := by
  unfold repairKfKm
  rw [hkf, hkm]
  simp only [Bool.and_self, if_true]
  by_cases hle : pmGet m "kf" ≤ pmGet m "km"
  · rw [if_pos hle]
    rw [pmGet_pmSet_self, pmGet_pmSet_ne m "kf" "km" _ (by decide)]
    nlinarith
  · rw [if_neg hle]
    linarith [not_le.mp hle]

/-- After `repairOmega`, when both keys are present and `omega2` is positive,
the strict ordering `omega2 < omega1` holds. -/
theorem repairOmega_orders (m : ParamMap)
    (h1 : pmContains m "omega1" = true) (h2 : pmContains m "omega2" = true)
    (hpos : 0 < pmGet m "omega2") :
    pmGet (repairOmega m) "omega2" < pmGet (repairOmega m) "omega1" := by
  unfold repairOmega
  rw [h1, h2]
  simp only [Bool.and_self, if_true]
  by_cases hle : pmGet m "omega1" ≤ pmGet m "omega2"
  · rw [if_pos hle]
    rw [pmGet_pmSet_self, pmGet_pmSet_ne m "omega1" "omega2" _ (by decide)]
    nlinarith
  · rw [if_neg hle]
    linarith [not_le.mp hle]

/-! Section: Sampler lemmas -/

theorem pickIndices_length (srcT : List ℚ) (endIdx : Nat) :
    ∀ (targets : List ℚ) (ci : Nat),
      (pickIndices srcT endIdx targets ci).length = targets.length := by
  intro targets
  induction targets with
  | nil => intro ci; rfl
  | cons tg rest ih =>
    intro ci
    simp [pickIndices, ih]

theorem dedupAux_length_le (l : List DataPoint) :
    ∀ last, (dedupAux last l).length ≤ l.length := by
  induction l with
  | nil => intro last; simp [dedupAux]
  | cons x rest ih =>
    intro last
    by_cases h : |x.t - last.t| < (1:ℚ)/10^9
    · rw [dedupAux, if_pos h]
      exact le_trans (ih last) (Nat.le_succ _)
    · rw [dedupAux, if_neg h]
      simpa using ih x

theorem dedupPoints_length_le (l : List DataPoint) :
    (dedupPoints l).length ≤ l.length := by
  cases l with
  | nil => simp [dedupPoints]
  | cons x rest => simpa [dedupPoints] using dedupAux_length_le rest x

/-- The kept points after dedup, seeded with a point below the whole list,
form a `ptSep` chain: consecutive kept times differ by at least `1e-9`. -/
theorem dedupAux_chain (l : List DataPoint) :
    ∀ last, List.Sorted ptLE l → (∀ x ∈ l, last.t ≤ x.t) →
      List.Chain' ptSep (last :: dedupAux last l) := by
  induction l with
  | nil => intro last _ _; simp [dedupAux]
  | cons x rest ih =>
    intro last hs hle
    rw [List.sorted_cons] at hs
    obtain ⟨hx, hrest⟩ := hs
    by_cases hnear : |x.t - last.t| < (1:ℚ)/10^9
    · rw [dedupAux, if_pos hnear]
      refine ih last hrest (fun y hy => ?_)
      exact le_trans (hle x (List.mem_cons_self x rest)) (hx y hy)
    · rw [dedupAux, if_neg hnear]
      rw [List.chain'_cons]
      constructor
      · have h1 : last.t ≤ x.t := hle x (List.mem_cons_self x rest)
        have h2 : (1:ℚ)/10^9 ≤ x.t - last.t := by
          have habs : |x.t - last.t| = x.t - last.t := abs_of_nonneg (by linarith)
          rw [habs] at hnear
          linarith [not_lt.mp hnear]
        have h9 : (0:ℚ) < 1/10^9 := by norm_num
        exact ⟨by linarith, h2⟩
      · exact ih x hrest hx

theorem dedupPoints_chain (l : List DataPoint) (hs : List.Sorted ptLE l) :
    List.Chain' ptSep (dedupPoints l) := by
  cases l with
  | nil => simp [dedupPoints]
  | cons x rest =>
    rw [List.sorted_cons] at hs
    exact dedupAux_chain rest x hs.2 hs.1

/-- The time component of the sampler's post-processing output is pairwise
strictly increasing with gaps of at least `1e-9`. -/
theorem finalizePoints_pairwise (pts : List DataPoint) :
    List.Pairwise timeSep (finalizePoints pts).1 := by
  have hs : List.Sorted ptLE (List.insertionSort ptLE pts) :=
    List.sorted_insertionSort ptLE pts
  have hchain := dedupPoints_chain _ hs
  have hpw : List.Pairwise ptSep (dedupPoints (List.insertionSort ptLE pts)) :=
    List.chain'_iff_pairwise.mp hchain
  have : List.Pairwise timeSep
      ((dedupPoints (List.insertionSort ptLE pts)).map DataPoint.t) := by
    rw [List.pairwise_map]
    exact hpw
  simpa [finalizePoints] using this

theorem finalizePoints_length_le (pts : List DataPoint) :
    (finalizePoints pts).1.length ≤ pts.length := by
  have h1 := dedupPoints_length_le (List.insertionSort ptLE pts)
  have h2 : (List.insertionSort ptLE pts).length = pts.length :=
    List.length_insertionSort ptLE pts
  simpa [finalizePoints, h2] using h1

theorem defaultPickedPoints_length (log10F pow10F : ℚ → ℚ)
    (srcT srcP srcD : List ℚ) :
    (defaultPickedPoints log10F pow10F srcT srcP srcD).length = 200 := by
  unfold defaultPickedPoints
  rw [List.length_map, pickIndices_length]
  simp
  with_unfolding_all decide

/-! Section: Repair-applied (fixpoint) machinery

Each repair step is idempotent, so "the repair has been applied to `m`" is
equivalent to `m` being a fixpoint of the repair function. -/

/-- The `kf`/`km` repair finds nothing to do on `m`. -/
def kfkmFixed (m : ParamMap) : Prop :=
  pmContains m "kf" = true → pmContains m "km" = true →
    pmGet m "kf" ≤ pmGet m "km" → pmGet m "kf" = pmGet m "km" * (101/100)

/-- The `omega1`/`omega2` repair finds nothing to do on `m`. -/
def omegaFixed (m : ParamMap) : Prop :=
  pmContains m "omega1" = true → pmContains m "omega2" = true →
    pmGet m "omega1" ≤ pmGet m "omega2" →
    pmGet m "omega1" = pmGet m "omega2" * (101/100)

/-- The `LfD` recomputation finds nothing to change on `m`. -/
def lfdFixed (m : ParamMap) : Prop :=
  pmContains m "L" = true → pmContains m "Lf" = true →
    (1:ℚ)/10^9 < pmGet m "L" →
    pmContains m "LfD" = true ∧ pmGet m "LfD" = pmGet m "Lf" / pmGet m "L"

theorem repairKfKm_eq_self (m : ParamMap) (h : kfkmFixed m) :
    repairKfKm m = m := by
  unfold repairKfKm
  by_cases hb : (pmContains m "kf" && pmContains m "km") = true
  · obtain ⟨h1, h2⟩ : _ ∧ _ := by simpa using hb
    rw [if_pos hb]
    by_cases hle : pmGet m "kf" ≤ pmGet m "km"
    · rw [if_pos hle, ← h h1 h2 hle]
      exact pmSet_get_of_contains m "kf" h1
    · rw [if_neg hle]
  · rw [if_neg hb]

theorem repairOmega_eq_self (m : ParamMap) (h : omegaFixed m) :
    repairOmega m = m := by
  unfold repairOmega
  by_cases hb : (pmContains m "omega1" && pmContains m "omega2") = true
  · obtain ⟨h1, h2⟩ : _ ∧ _ := by simpa using hb
    rw [if_pos hb]
    by_cases hle : pmGet m "omega1" ≤ pmGet m "omega2"
    · rw [if_pos hle, ← h h1 h2 hle]
      exact pmSet_get_of_contains m "omega1" h1
    · rw [if_neg hle]
  · rw [if_neg hb]

theorem recomputeLfD_eq_self (m : ParamMap) (h : lfdFixed m) :
    recomputeLfD m = m := by
  unfold recomputeLfD
  by_cases hb : (pmContains m "L" && pmContains m "Lf" &&
      decide ((1:ℚ)/10^9 < pmGet m "L")) = true
  · obtain ⟨⟨hL, hLf⟩, hgt⟩ : (_ ∧ _) ∧ _ := by simpa using hb
    obtain ⟨hcont, hval⟩ := h hL hLf (by simpa using hgt)
    rw [if_pos hb, ← hval]
    exact pmSet_get_of_contains m "LfD" hcont
  · rw [if_neg hb]

/-- After running the `kf`/`km` repair, its own condition is discharged. -/
theorem kfkmFixed_repairKfKm (m : ParamMap) : kfkmFixed (repairKfKm m) := by
  unfold repairKfKm kfkmFixed
  by_cases hb : (pmContains m "kf" && pmContains m "km") = true
  · rw [if_pos hb]
    by_cases hle : pmGet m "kf" ≤ pmGet m "km"
    · rw [if_pos hle]
      intro _ _ _
      rw [pmGet_pmSet_self, pmGet_pmSet_ne m "kf" "km" _ (by decide)]
    · rw [if_neg hle]
      intro _ _ hle2
      exact absurd hle2 hle
  · rw [if_neg hb]
    intro h1 h2 _
    exact absurd (by simp [h1, h2]) hb

/-- After running the `omega1`/`omega2` repair, its condition is discharged. -/
theorem omegaFixed_repairOmega (m : ParamMap) : omegaFixed (repairOmega m) := by
  unfold repairOmega omegaFixed
  by_cases hb : (pmContains m "omega1" && pmContains m "omega2") = true
  · rw [if_pos hb]
    by_cases hle : pmGet m "omega1" ≤ pmGet m "omega2"
    · rw [if_pos hle]
      intro _ _ _
      rw [pmGet_pmSet_self, pmGet_pmSet_ne m "omega1" "omega2" _ (by decide)]
    · rw [if_neg hle]
      intro _ _ hle2
      exact absurd hle2 hle
  · rw [if_neg hb]
    intro h1 h2 _
    exact absurd (by simp [h1, h2]) hb

/-- After recomputing `LfD`, its condition is discharged. -/
theorem lfdFixed_recomputeLfD (m : ParamMap) : lfdFixed (recomputeLfD m) := by
  unfold recomputeLfD lfdFixed
  by_cases hb : (pmContains m "L" && pmContains m "Lf" &&
      decide ((1:ℚ)/10^9 < pmGet m "L")) = true
  · rw [if_pos hb]
    intro _ _ _
    refine ⟨pmContains_pmSet_self m "LfD" _, ?_⟩
    rw [pmGet_pmSet_self, pmGet_pmSet_ne m "LfD" "Lf" _ (by decide),
      pmGet_pmSet_ne m "LfD" "L" _ (by decide)]
  · rw [if_neg hb]
    intro h1 h2 h3
    exact absurd (by rw [h1, h2]; simpa using h3) hb

/-- After `updateCurveLfD`, the `LfD` recomputation finds nothing to do. -/
theorem lfdFixed_updateCurveLfD (m : ParamMap) : lfdFixed (updateCurveLfD m) := by
  unfold updateCurveLfD lfdFixed
  by_cases hb : (pmContains m "L" && pmContains m "Lf" &&
      decide ((1:ℚ)/10^9 < pmGet m "L")) = true
  · rw [if_pos hb]
    intro _ _ _
    refine ⟨pmContains_pmSet_self m "LfD" _, ?_⟩
    rw [pmGet_pmSet_self, pmGet_pmSet_ne m "LfD" "Lf" _ (by decide),
      pmGet_pmSet_ne m "LfD" "L" _ (by decide)]
  · rw [if_neg hb]
    intro h1 h2 h3
    rw [pmContains_pmSet_ne m "LfD" "L" _ (by decide)] at h1
    rw [pmContains_pmSet_ne m "LfD" "Lf" _ (by decide)] at h2
    rw [pmGet_pmSet_ne m "LfD" "L" _ (by decide)] at h3
    exact absurd (by rw [h1, h2]; simpa using h3) hb

/-- Predicate `kfkmFixed` transports along maps that agree on `kf` and `km`. -/
theorem kfkmFixed_of_agree (m m' : ParamMap)
    (hgk : pmGet m' "kf" = pmGet m "kf") (hgm : pmGet m' "km" = pmGet m "km")
    (hck : pmContains m' "kf" = pmContains m "kf")
    (hcm : pmContains m' "km" = pmContains m "km")
    (h : kfkmFixed m) : kfkmFixed m' := by
  intro h1 h2 h3
  rw [hck] at h1
  rw [hcm] at h2
  rw [hgk, hgm] at h3 ⊢
  exact h h1 h2 h3

theorem omegaFixed_of_agree (m m' : ParamMap)
    (hg1 : pmGet m' "omega1" = pmGet m "omega1")
    (hg2 : pmGet m' "omega2" = pmGet m "omega2")
    (hc1 : pmContains m' "omega1" = pmContains m "omega1")
    (hc2 : pmContains m' "omega2" = pmContains m "omega2")
    (h : omegaFixed m) : omegaFixed m' := by
  intro h1 h2 h3
  rw [hc1] at h1
  rw [hc2] at h2
  rw [hg1, hg2] at h3 ⊢
  exact h h1 h2 h3

theorem lfdFixed_of_agree (m m' : ParamMap)
    (hgL : pmGet m' "L" = pmGet m "L") (hgLf : pmGet m' "Lf" = pmGet m "Lf")
    (hgD : pmGet m' "LfD" = pmGet m "LfD")
    (hcL : pmContains m' "L" = pmContains m "L")
    (hcLf : pmContains m' "Lf" = pmContains m "Lf")
    (hcD : pmContains m' "LfD" = pmContains m "LfD")
    (h : lfdFixed m) : lfdFixed m' := by
  intro h1 h2 h3
  rw [hcL] at h1
  rw [hcLf] at h2
  rw [hgL] at h3
  obtain ⟨ha, hb⟩ := h h1 h2 h3
  refine ⟨by rw [hcD, ha], ?_⟩
  rw [hgD, hgL, hgLf, hb]

/-! Section: Fixpoint facts for the three repair sites -/

theorem trialRepair_kfkm_fix (m : ParamMap) :
    repairKfKm (trialRepair m) = trialRepair m := by
  unfold trialRepair
  refine repairKfKm_eq_self _
    (kfkmFixed_of_agree (repairKfKm (recomputeLfD m)) _ ?_ ?_ ?_ ?_
      (kfkmFixed_repairKfKm (recomputeLfD m)))
  · exact pmGet_repairOmega_ne _ "kf" (by decide)
  · exact pmGet_repairOmega_ne _ "km" (by decide)
  · exact pmContains_repairOmega_ne _ "kf" (by decide)
  · exact pmContains_repairOmega_ne _ "km" (by decide)

theorem trialRepair_omega_fix (m : ParamMap) :
    repairOmega (trialRepair m) = trialRepair m := by
  unfold trialRepair
  exact repairOmega_eq_self _ (omegaFixed_repairOmega _)

theorem trialRepair_lfd_fix (m : ParamMap) :
    recomputeLfD (trialRepair m) = trialRepair m := by
  unfold trialRepair
  have h1 : lfdFixed (repairKfKm (recomputeLfD m)) := by
    refine lfdFixed_of_agree (recomputeLfD m) _ ?_ ?_ ?_ ?_ ?_ ?_
      (lfdFixed_recomputeLfD m)
    · exact pmGet_repairKfKm_ne _ "L" (by decide)
    · exact pmGet_repairKfKm_ne _ "Lf" (by decide)
    · exact pmGet_repairKfKm_ne _ "LfD" (by decide)
    · exact pmContains_repairKfKm_ne _ "L" (by decide)
    · exact pmContains_repairKfKm_ne _ "Lf" (by decide)
    · exact pmContains_repairKfKm_ne _ "LfD" (by decide)
  refine recomputeLfD_eq_self _
    (lfdFixed_of_agree (repairKfKm (recomputeLfD m)) _ ?_ ?_ ?_ ?_ ?_ ?_ h1)
  · exact pmGet_repairOmega_ne _ "L" (by decide)
  · exact pmGet_repairOmega_ne _ "Lf" (by decide)
  · exact pmGet_repairOmega_ne _ "LfD" (by decide)
  · exact pmContains_repairOmega_ne _ "L" (by decide)
  · exact pmContains_repairOmega_ne _ "Lf" (by decide)
  · exact pmContains_repairOmega_ne _ "LfD" (by decide)

theorem initialRepair_kfkm_fix (m : ParamMap) :
    repairKfKm (initialRepair m) = initialRepair m := by
  unfold initialRepair
  have h1 : kfkmFixed (repairOmega (repairKfKm m)) := by
    refine kfkmFixed_of_agree (repairKfKm m) _ ?_ ?_ ?_ ?_ (kfkmFixed_repairKfKm m)
    · exact pmGet_repairOmega_ne _ "kf" (by decide)
    · exact pmGet_repairOmega_ne _ "km" (by decide)
    · exact pmContains_repairOmega_ne _ "kf" (by decide)
    · exact pmContains_repairOmega_ne _ "km" (by decide)
  refine repairKfKm_eq_self _
    (kfkmFixed_of_agree (repairOmega (repairKfKm m)) _ ?_ ?_ ?_ ?_ h1)
  · exact pmGet_recomputeLfD_ne _ "kf" (by decide)
  · exact pmGet_recomputeLfD_ne _ "km" (by decide)
  · exact pmContains_recomputeLfD_ne _ "kf" (by decide)
  · exact pmContains_recomputeLfD_ne _ "km" (by decide)

theorem initialRepair_omega_fix (m : ParamMap) :
    repairOmega (initialRepair m) = initialRepair m := by
  unfold initialRepair
  refine repairOmega_eq_self _
    (omegaFixed_of_agree (repairOmega (repairKfKm m)) _ ?_ ?_ ?_ ?_
      (omegaFixed_repairOmega _))
  · exact pmGet_recomputeLfD_ne _ "omega1" (by decide)
  · exact pmGet_recomputeLfD_ne _ "omega2" (by decide)
  · exact pmContains_recomputeLfD_ne _ "omega1" (by decide)
  · exact pmContains_recomputeLfD_ne _ "omega2" (by decide)

theorem initialRepair_lfd_fix (m : ParamMap) :
    recomputeLfD (initialRepair m) = initialRepair m := by
  unfold initialRepair
  exact recomputeLfD_eq_self _ (lfdFixed_recomputeLfD _)

theorem updateCurveRepair_kfkm_fix (m : ParamMap) :
    repairKfKm (updateCurveRepair m) = updateCurveRepair m := by
  unfold updateCurveRepair
  refine repairKfKm_eq_self _
    (kfkmFixed_of_agree (repairKfKm (updateCurveLfD m)) _ ?_ ?_ ?_ ?_
      (kfkmFixed_repairKfKm (updateCurveLfD m)))
  · exact pmGet_repairOmega_ne _ "kf" (by decide)
  · exact pmGet_repairOmega_ne _ "km" (by decide)
  · exact pmContains_repairOmega_ne _ "kf" (by decide)
  · exact pmContains_repairOmega_ne _ "km" (by decide)

theorem updateCurveRepair_omega_fix (m : ParamMap) :
    repairOmega (updateCurveRepair m) = updateCurveRepair m := by
  unfold updateCurveRepair
  exact repairOmega_eq_self _ (omegaFixed_repairOmega _)

theorem updateCurveRepair_lfd_fix (m : ParamMap) :
    recomputeLfD (updateCurveRepair m) = updateCurveRepair m := by
  unfold updateCurveRepair
  have h1 : lfdFixed (repairKfKm (updateCurveLfD m)) := by
    refine lfdFixed_of_agree (updateCurveLfD m) _ ?_ ?_ ?_ ?_ ?_ ?_
      (lfdFixed_updateCurveLfD m)
    · exact pmGet_repairKfKm_ne _ "L" (by decide)
    · exact pmGet_repairKfKm_ne _ "Lf" (by decide)
    · exact pmGet_repairKfKm_ne _ "LfD" (by decide)
    · exact pmContains_repairKfKm_ne _ "L" (by decide)
    · exact pmContains_repairKfKm_ne _ "Lf" (by decide)
    · exact pmContains_repairKfKm_ne _ "LfD" (by decide)
  refine recomputeLfD_eq_self _
    (lfdFixed_of_agree (repairKfKm (updateCurveLfD m)) _ ?_ ?_ ?_ ?_ ?_ ?_ h1)
  · exact pmGet_repairOmega_ne _ "L" (by decide)
  · exact pmGet_repairOmega_ne _ "Lf" (by decide)
  · exact pmGet_repairOmega_ne _ "LfD" (by decide)
  · exact pmContains_repairOmega_ne _ "L" (by decide)
  · exact pmContains_repairOmega_ne _ "Lf" (by decide)
  · exact pmContains_repairOmega_ne _ "LfD" (by decide)

theorem sensitivityOverride_kfkm_fix (m : ParamMap) (key : String) (v : ℚ) :
    repairKfKm (sensitivityOverride m key v) = sensitivityOverride m key v := by
  unfold sensitivityOverride
  exact repairKfKm_eq_self _ (kfkmFixed_repairKfKm _)

/-! Section: SSE monotonicity machinery -/

/-- The controller invariant: the accepted-SSE trace is strictly decreasing
and the current SSE is at most the last accepted value. -/
def sseInv (st : LMState) : Prop :=
  List.Chain' (fun a b => b < a) st.accepted ∧
  ∀ l ∈ st.accepted.getLast?, st.sse ≤ l

theorem innerLoop_inv (c : LMCtx) (H : List (List ℚ)) (g : List ℚ) :
    ∀ (fuel : Nat) (st : LMState), sseInv st → sseInv (innerLoop c H g fuel st).1 := by
  intro fuel
  induction fuel with
  | zero => intro st h; exact h
  | succ f ih =>
    intro st h
    rw [innerLoop]
    split
    · next hacc =>
      constructor
      · rw [List.chain'_append]
        refine ⟨h.1, List.chain'_singleton _, ?_⟩
        intro x hx y hy
        simp only [List.head?_cons, Option.mem_def, Option.some.injEq] at hy
        subst hy
        exact lt_of_lt_of_le hacc (h.2 x hx)
      · intro l hl
        rw [List.getLast?_concat] at hl
        simp only [Option.mem_def, Option.some.injEq] at hl
        subst hl
        exact le_refl _
    · exact ih _ ⟨h.1, h.2⟩

theorem outerLoop_inv (c : LMCtx) :
    ∀ (fuel iter : Nat) (st : LMState), sseInv st → sseInv (outerLoop c fuel iter st) := by
  intro fuel
  induction fuel with
  | zero => intro iter st h; exact h
  | succ f ih =>
    intro iter st h
    rw [outerLoop]
    split
    · exact h
    · split
      · exact h
      · dsimp only
        split
        · exact innerLoop_inv _ _ _ 5 _ ⟨h.1, h.2⟩
        · exact ih _ _ (innerLoop_inv _ _ _ 5 _ ⟨h.1, h.2⟩)

/-! Section: Free-parameter selection lemmas -/

theorem fitIndicesOf_length_ne_zero (params : List FitParameter)
    (h : ∃ p ∈ params, p.isFit = true ∧ p.name ≠ "LfD") :
    (fitIndicesOf params).length ≠ 0 := by
  obtain ⟨p, hp, hfit, hname⟩ := h
  obtain ⟨i, hi, hpi⟩ := List.getElem_of_mem hp
  have hget : params.get? i = some p := by
    simp [List.get?_eq_getElem?, List.getElem?_eq_getElem hi, hpi]
  have hmem : i ∈ fitIndicesOf params := by
    unfold fitIndicesOf
    refine List.mem_filter.mpr ⟨List.mem_range.mpr hi, ?_⟩
    rw [hget]
    simp only [Option.getD_some]
    rw [hfit, bne_iff_ne.mpr hname]
    rfl
  have : 0 < (fitIndicesOf params).length :=
    List.length_pos.mpr (List.ne_nil_of_mem hmem)
  omega

theorem fitIndicesOf_eq_nil (params : List FitParameter)
    (h : ∀ p ∈ params, p.isFit = true → p.name = "LfD") :
    fitIndicesOf params = [] := by
  unfold fitIndicesOf
  refine List.filter_eq_nil_iff.mpr ?_
  intro i hi
  have hlt : i < params.length := List.mem_range.mp hi
  have hget : params.get? i = some params[i] := by
    simp [List.get?_eq_getElem?, List.getElem?_eq_getElem hlt]
  rw [hget]
  simp only [Option.getD_some]
  rcases Bool.eq_false_or_eq_true params[i].isFit with hf | hf
  · have := h params[i] (List.getElem_mem hlt) hf
    simp [this]
  · simp [hf]

/-- C1: amended.  On every exit path of the iteration loop (convergence,
cancellation, stall, max iterations) the optimizer restores the forward
model's high-precision flag to `true`; this holds whenever at least one
free (fit-eligible, non-`LfD`) parameter is selected.  On the trivial exit
with no free parameter the flag is left `false` (see the counterexample). -/
theorem C1_precision_restored_amended (env : LMEnv) (params : List FitParameter)
    (weight : ℚ) (obsT obsP obsD : List ℚ)
    (h : ∃ p ∈ params, p.isFit = true ∧ p.name ≠ "LfD") :
    (runLM env params weight obsT obsP obsD).highPrecision = true := by
  have hne := fitIndicesOf_length_ne_zero params h
  simp only [runLM]
  rw [if_neg hne]

/-- C1: counterexample to the claim as stated.  With no free parameter the
run exits through the trivial path and the precision flag is still `false`
when `runLevenbergMarquardtOptimization` returns. -/
theorem C1_counterexample :
    (runLM envW [{ name := "kf", value := 1, isFit := false, min := 0, max := 10 }]
      1 [] [] []).highPrecision = false := by
  with_unfolding_all decide

/-- C1: witness for the amended theorem at a concrete free parameter. -/
theorem C1_witness :
    (runLM envW [{ name := "kf", value := 1, isFit := true, min := 0, max := 10 }]
      1 [] [] []).highPrecision = true :=
  C1_precision_restored_amended envW _ 1 [] [] []
    ⟨{ name := "kf", value := 1, isFit := true, min := 0, max := 10 },
      List.mem_cons_self _ _, rfl, by decide⟩

/-- C2: amended.  After the constraint repair (at any of its three sites),
whenever both `kf` and `km` are present and `km` is strictly positive, the
strict ordering `kf > km` holds, and likewise `omega1 > omega2` when both
are present and `omega2` is strictly positive.  For non-positive `km`
(resp. `omega2`) the repaired `kf = km * 1.01` is not above `km` (see the
counterexample). -/
theorem C2_repair_orders_amended (m : ParamMap) :
    ((pmContains m "kf" = true → pmContains m "km" = true → 0 < pmGet m "km" →
      pmGet (initialRepair m) "km" < pmGet (initialRepair m) "kf" ∧
      pmGet (trialRepair m) "km" < pmGet (trialRepair m) "kf" ∧
      pmGet (updateCurveRepair m) "km" < pmGet (updateCurveRepair m) "kf")) ∧
    ((pmContains m "omega1" = true → pmContains m "omega2" = true →
      0 < pmGet m "omega2" →
      pmGet (initialRepair m) "omega2" < pmGet (initialRepair m) "omega1" ∧
      pmGet (trialRepair m) "omega2" < pmGet (trialRepair m) "omega1" ∧
      pmGet (updateCurveRepair m) "omega2" < pmGet (updateCurveRepair m) "omega1")) := by
  constructor
  · intro hkf hkm hpos
    refine ⟨?_, ?_, ?_⟩
    · unfold initialRepair
      rw [pmGet_recomputeLfD_ne _ "km" (by decide),
        pmGet_recomputeLfD_ne _ "kf" (by decide),
        pmGet_repairOmega_ne _ "km" (by decide),
        pmGet_repairOmega_ne _ "kf" (by decide)]
      exact repairKfKm_orders m hkf hkm hpos
    · unfold trialRepair
      rw [pmGet_repairOmega_ne _ "km" (by decide),
        pmGet_repairOmega_ne _ "kf" (by decide)]
      refine repairKfKm_orders _ ?_ ?_ ?_
      · rw [pmContains_recomputeLfD_ne _ "kf" (by decide)]
        exact hkf
      · rw [pmContains_recomputeLfD_ne _ "km" (by decide)]
        exact hkm
      · rw [pmGet_recomputeLfD_ne _ "km" (by decide)]
        exact hpos
    · unfold updateCurveRepair
      rw [pmGet_repairOmega_ne _ "km" (by decide),
        pmGet_repairOmega_ne _ "kf" (by decide)]
      refine repairKfKm_orders _ ?_ ?_ ?_
      · rw [pmContains_updateCurveLfD_ne _ "kf" (by decide)]
        exact hkf
      · rw [pmContains_updateCurveLfD_ne _ "km" (by decide)]
        exact hkm
      · rw [pmGet_updateCurveLfD_ne _ "km" (by decide)]
        exact hpos
  · intro h1 h2 hpos
    refine ⟨?_, ?_, ?_⟩
    · unfold initialRepair
      rw [pmGet_recomputeLfD_ne _ "omega2" (by decide),
        pmGet_recomputeLfD_ne _ "omega1" (by decide)]
      refine repairOmega_orders _ ?_ ?_ ?_
      · rw [pmContains_repairKfKm_ne _ "omega1" (by decide)]
        exact h1
      · rw [pmContains_repairKfKm_ne _ "omega2" (by decide)]
        exact h2
      · rw [pmGet_repairKfKm_ne _ "omega2" (by decide)]
        exact hpos
    · unfold trialRepair
      refine repairOmega_orders _ ?_ ?_ ?_
      · rw [pmContains_repairKfKm_ne _ "omega1" (by decide),
          pmContains_recomputeLfD_ne _ "omega1" (by decide)]
        exact h1
      · rw [pmContains_repairKfKm_ne _ "omega2" (by decide),
          pmContains_recomputeLfD_ne _ "omega2" (by decide)]
        exact h2
      · rw [pmGet_repairKfKm_ne _ "omega2" (by decide),
          pmGet_recomputeLfD_ne _ "omega2" (by decide)]
        exact hpos
    · unfold updateCurveRepair
      refine repairOmega_orders _ ?_ ?_ ?_
      · rw [pmContains_repairKfKm_ne _ "omega1" (by decide),
          pmContains_updateCurveLfD_ne _ "omega1" (by decide)]
        exact h1
      · rw [pmContains_repairKfKm_ne _ "omega2" (by decide),
          pmContains_updateCurveLfD_ne _ "omega2" (by decide)]
        exact h2
      · rw [pmGet_repairKfKm_ne _ "omega2" (by decide),
          pmGet_updateCurveLfD_ne _ "omega2" (by decide)]
        exact hpos

/-- C2: counterexample to the claim as stated.  With `kf = km = 0` both keys
are present, the repair fires (`kf := km * 1.01 = 0`), yet `kf > km` fails
after the repair. -/
theorem C2_counterexample :
    pmContains (trialRepair [("kf", 0), ("km", 0)]) "kf" = true ∧
    pmContains (trialRepair [("kf", 0), ("km", 0)]) "km" = true ∧
    ¬ (pmGet (trialRepair [("kf", 0), ("km", 0)]) "km" <
        pmGet (trialRepair [("kf", 0), ("km", 0)]) "kf") := by
  refine ⟨?_, ?_, ?_⟩ <;> with_unfolding_all decide

/-- C2: witness for the amended theorem on a concrete map with positive
`km` and `omega2`. -/
theorem C2_witness :
    pmGet (trialRepair [("kf", 1), ("km", 2), ("omega1", 1), ("omega2", 3)]) "km" <
      pmGet (trialRepair [("kf", 1), ("km", 2), ("omega1", 1), ("omega2", 3)]) "kf" ∧
    pmGet (trialRepair [("kf", 1), ("km", 2), ("omega1", 1), ("omega2", 3)]) "omega2" <
      pmGet (trialRepair [("kf", 1), ("km", 2), ("omega1", 1), ("omega2", 3)]) "omega1" := by
  have h := C2_repair_orders_amended [("kf", 1), ("km", 2), ("omega1", 1), ("omega2", 3)]
  exact ⟨(h.1 (by with_unfolding_all decide) (by with_unfolding_all decide)
            (by with_unfolding_all decide)).2.1,
         (h.2 (by with_unfolding_all decide) (by with_unfolding_all decide)
            (by with_unfolding_all decide)).2.1⟩

/-- C3: amended.  The full constraint repair (kf/km ordering, omega1/omega2
ordering, LfD recomputation) is applied — equivalently, the resulting map is
a fixpoint of every repair step — after building the initial parameter map,
after every trial step in the solver, and after every externally supplied
parameter update through `updateModelCurve`; however, a parameter override
performed during a sensitivity sweep re-applies only the `kf`/`km` repair
(and, for the length keys, the `LfD` recomputation), not the
`omega1`/`omega2` repair (see the counterexample). -/
theorem C3_repair_sites_amended (m : ParamMap) (key : String) (v : ℚ) :
    (repairKfKm (initialRepair m) = initialRepair m ∧
     repairOmega (initialRepair m) = initialRepair m ∧
     recomputeLfD (initialRepair m) = initialRepair m) ∧
    (repairKfKm (trialRepair m) = trialRepair m ∧
     repairOmega (trialRepair m) = trialRepair m ∧
     recomputeLfD (trialRepair m) = trialRepair m) ∧
    (repairKfKm (updateCurveRepair m) = updateCurveRepair m ∧
     repairOmega (updateCurveRepair m) = updateCurveRepair m ∧
     recomputeLfD (updateCurveRepair m) = updateCurveRepair m) ∧
    repairKfKm (sensitivityOverride m key v) = sensitivityOverride m key v :=
  ⟨⟨initialRepair_kfkm_fix m, initialRepair_omega_fix m, initialRepair_lfd_fix m⟩,
   ⟨trialRepair_kfkm_fix m, trialRepair_omega_fix m, trialRepair_lfd_fix m⟩,
   ⟨updateCurveRepair_kfkm_fix m, updateCurveRepair_omega_fix m,
    updateCurveRepair_lfd_fix m⟩,
   sensitivityOverride_kfkm_fix m key v⟩

/-- C3: counterexample to the claim as stated.  Overriding `omega2` during a
sensitivity sweep leaves the parameter set with `omega1 < omega2` — the
`omega1`/`omega2` repair is not re-applied on this path, so the resulting
map is not a fixpoint of `repairOmega`. -/
theorem C3_counterexample :
    pmGet (sensitivityOverride
        [("omega1", 1/10), ("omega2", 1/20), ("kf", 2), ("km", 1)]
        "omega2" (1/2)) "omega1" <
      pmGet (sensitivityOverride
        [("omega1", 1/10), ("omega2", 1/20), ("kf", 2), ("km", 1)]
        "omega2" (1/2)) "omega2" ∧
    repairOmega (sensitivityOverride
        [("omega1", 1/10), ("omega2", 1/20), ("kf", 2), ("km", 1)]
        "omega2" (1/2)) ≠
      sensitivityOverride
        [("omega1", 1/10), ("omega2", 1/20), ("kf", 2), ("km", 1)]
        "omega2" (1/2) := by
  refine ⟨?_, ?_⟩ <;> with_unfolding_all decide

/-- C9: confirmed.  When no parameter is both fit-eligible and non-derived,
the optimizer terminates immediately: zero outer iterations, no Jacobian
build, no trial evaluation, no accepted step, and the completion signal is
still delivered. -/
theorem C9_trivial_exit (env : LMEnv) (params : List FitParameter)
    (weight : ℚ) (obsT obsP obsD : List ℚ)
    (h : ∀ p ∈ params, p.isFit = true → p.name = "LfD") :
    (runLM env params weight obsT obsP obsD).finishedSignalled = true ∧
    (runLM env params weight obsT obsP obsD).outerIters = 0 ∧
    (runLM env params weight obsT obsP obsD).jacobianCalls = 0 ∧
    (runLM env params weight obsT obsP obsD).trialEvals = 0 ∧
    (runLM env params weight obsT obsP obsD).accepted = [] := by
  have hnil := fitIndicesOf_eq_nil params h
  simp only [runLM, hnil]
  refine ⟨rfl, rfl, rfl, rfl, rfl⟩

/-- C9: witness at a concrete parameter table whose only fit-enabled entry
is the derived parameter `LfD`. -/
theorem C9_witness :
    (runLM envW
      [{ name := "km", value := 1, isFit := false, min := 0, max := 10 },
       { name := "LfD", value := 1, isFit := true, min := 0, max := 1 }]
      1 [] [] []).finishedSignalled = true ∧
    (runLM envW
      [{ name := "km", value := 1, isFit := false, min := 0, max := 10 },
       { name := "LfD", value := 1, isFit := true, min := 0, max := 1 }]
      1 [] [] []).outerIters = 0 ∧
    (runLM envW
      [{ name := "km", value := 1, isFit := false, min := 0, max := 10 },
       { name := "LfD", value := 1, isFit := true, min := 0, max := 1 }]
      1 [] [] []).jacobianCalls = 0 ∧
    (runLM envW
      [{ name := "km", value := 1, isFit := false, min := 0, max := 10 },
       { name := "LfD", value := 1, isFit := true, min := 0, max := 1 }]
      1 [] [] []).trialEvals = 0 ∧
    (runLM envW
      [{ name := "km", value := 1, isFit := false, min := 0, max := 10 },
       { name := "LfD", value := 1, isFit := true, min := 0, max := 1 }]
      1 [] [] []).accepted = [] :=
  C9_trivial_exit envW _ 1 [] [] [] (by decide)

/-- C10: confirmed.  In the solver's trial step the bounded update is
clamped before the constraint repair runs and the repair does not re-clamp:
at this concrete configuration (`kf` bounded by `max = 10`, `km = 10`
inside its own bounds, trial update driving `kf` to its bound) the trial
parameter set handed to the residual evaluation carries
`kf = 10 * 1.01 = 10.1`, strictly above the declared `max` bound of `kf`. -/
theorem C10_trial_exceeds_max :
    ((([{ name := "kf", value := 0, isFit := true, min := 0, max := 10 },
        { name := "km", value := 10, isFit := false, min := 0, max := 100 }] :
          List FitParameter).get? 0).getD default).max <
      pmGet (buildTrial id id [("kf", 0), ("km", 10)]
        [{ name := "kf", value := 0, isFit := true, min := 0, max := 10 },
         { name := "km", value := 10, isFit := false, min := 0, max := 100 }]
        (fitIndicesOf
          [{ name := "kf", value := 0, isFit := true, min := 0, max := 10 },
           { name := "km", value := 10, isFit := false, min := 0, max := 100 }])
        [20]) "kf" := by
  with_unfolding_all decide

/-- C8: confirmed.  Across any single optimization run the accepted-step SSE
trace is strictly decreasing (a trial is accepted only on strict SSE
decrease and the current SSE is replaced only by accepted trials), hence in
particular non-increasing. -/
theorem C8_sse_monotonic (env : LMEnv) (params : List FitParameter)
    (weight : ℚ) (obsT obsP obsD : List ℚ) :
    List.Chain' (fun a b => b ≤ a)
      (runLM env params weight obsT obsP obsD).accepted ∧
    List.Chain' (fun a b => b < a)
      (runLM env params weight obsT obsP obsD).accepted := by
  have key : List.Chain' (fun a b => b < a)
      (runLM env params weight obsT obsP obsD).accepted := by
    simp only [runLM]
    split
    · exact List.chain'_nil
    · refine ((outerLoop_inv _ 50 0 _ ?_).1 :)
      exact ⟨List.chain'_nil, by simp⟩
  exact ⟨List.Chain'.imp (fun a b hab => le_of_lt hab) key, key⟩

/-- C4: amended.  For every observed input series and sampling
configuration, either the Sampler takes a pass-through path (empty input,
default mode with at most 200 points, or custom mode with an empty interval
list) and returns its input unchanged, or its output times are pairwise
strictly increasing with every pair at least `1e-9` apart.  On the
pass-through paths the output inherits whatever spacing the input had (see
the counterexample). -/
theorem C4_sampler_separation_amended (cfg : SamplingCfg) (log10F pow10F : ℚ → ℚ)
    (srcT srcP srcD : List ℚ) :
    getLogSampledData cfg log10F pow10F srcT srcP srcD = (srcT, srcP, srcD) ∨
    List.Pairwise timeSep (getLogSampledData cfg log10F pow10F srcT srcP srcD).1 := by
  unfold getLogSampledData
  by_cases hT : srcT = []
  · rw [if_pos hT]
    right
    exact List.Pairwise.nil
  · rw [if_neg hT]
    by_cases hc : cfg.customEnabled
    · rw [if_neg (by simpa using hc)]
      by_cases hi : cfg.intervals = []
      · rw [if_pos hi]
        left
        rfl
      · rw [if_neg hi]
        right
        exact finalizePoints_pairwise _
    · rw [if_pos (by simpa using hc)]
      by_cases hlen : srcT.length ≤ 200
      · rw [if_pos hlen]
        left
        rfl
      · rw [if_neg hlen]
        right
        exact finalizePoints_pairwise _

/-- C4: counterexample to the claim as stated.  A two-point series with
times `0` and `1e-10` (strictly increasing, hence a valid observed series)
in default mode is returned unchanged, and its two output times are within
`1e-9` of each other. -/
theorem C4_counterexample :
    (getLogSampledData { customEnabled := false, intervals := [] } id id
        [0, 1/10^10] [1, 1] [1, 1]).1.length = 2 ∧
    ¬ List.Pairwise timeSep
        (getLogSampledData { customEnabled := false, intervals := [] } id id
          [0, 1/10^10] [1, 1] [1, 1]).1 := by
  refine ⟨?_, ?_⟩ <;> with_unfolding_all decide

/-- C5: confirmed.  In default sampling mode, a series of at most 200
points is returned unchanged element-for-element, and a longer series
yields exactly 200 picked points before dedup (one per log-spaced target of
the monotone nearest-point scan) and at most 200 output points after
dedup. -/
theorem C5_default_cardinality (ivs : List SamplingInt) (log10F pow10F : ℚ → ℚ)
    (srcT srcP srcD : List ℚ)
    (hP : srcP.length = srcT.length) (hD : srcD.length = srcT.length) :
    (srcT.length ≤ 200 →
      getLogSampledData { customEnabled := false, intervals := ivs }
        log10F pow10F srcT srcP srcD = (srcT, srcP, srcD)) ∧
    (200 < srcT.length →
      (defaultPickedPoints log10F pow10F srcT srcP srcD).length = 200 ∧
      (getLogSampledData { customEnabled := false, intervals := ivs }
        log10F pow10F srcT srcP srcD).1.length ≤ 200) := by
  constructor
  · intro hle
    unfold getLogSampledData
    by_cases hT : srcT = []
    · rw [if_pos hT]
      have hP0 : srcP = [] := List.eq_nil_of_length_eq_zero (by rw [hP, hT]; rfl)
      have hD0 : srcD = [] := List.eq_nil_of_length_eq_zero (by rw [hD, hT]; rfl)
      rw [hT, hP0, hD0]
    · rw [if_neg hT]
      simp [hle]
  · intro hgt
    have hT : srcT ≠ [] := by
      intro hT
      rw [hT] at hgt
      exact absurd hgt (by simp)
    constructor
    · exact defaultPickedPoints_length log10F pow10F srcT srcP srcD
    · have hout : getLogSampledData { customEnabled := false, intervals := ivs }
          log10F pow10F srcT srcP srcD =
          finalizePoints (defaultPickedPoints log10F pow10F srcT srcP srcD) := by
        unfold getLogSampledData
        rw [if_neg hT]
        simp [not_le.mpr hgt]
      rw [hout]
      calc (finalizePoints (defaultPickedPoints log10F pow10F srcT srcP srcD)).1.length
          ≤ (defaultPickedPoints log10F pow10F srcT srcP srcD).length :=
            finalizePoints_length_le _
        _ = 200 := defaultPickedPoints_length log10F pow10F srcT srcP srcD

/-- C5: witness at a short series (returned unchanged) and at a 201-point
series (exactly 200 picks before dedup, at most 200 after). -/
theorem C5_witness :
    getLogSampledData { customEnabled := false, intervals := [] } id id
      [1, 2, 3] [4, 5, 6] [7, 8, 9] = ([1, 2, 3], [4, 5, 6], [7, 8, 9]) ∧
    (defaultPickedPoints id id (List.replicate 201 1) (List.replicate 201 1)
      (List.replicate 201 1)).length = 200 ∧
    (getLogSampledData { customEnabled := false, intervals := [] } id id
      (List.replicate 201 1) (List.replicate 201 1)
      (List.replicate 201 1)).1.length ≤ 200 := by
  refine ⟨?_, ?_⟩
  · exact (C5_default_cardinality [] id id [1, 2, 3] [4, 5, 6] [7, 8, 9]
      rfl rfl).1 (by norm_num)
  · exact (C5_default_cardinality [] id id (List.replicate 201 1)
      (List.replicate 201 1) (List.replicate 201 1) (by simp) (by simp)).2
      (by simp)

/-- C6: confirmed.  The residual vector is the pressure block followed by
the derivative block: entry `i` of the pressure block is
`(ln obsP[i] − ln modP[i]) · weight` when both values exceed the `1e-10`
floor and `0` otherwise; the derivative block analogously uses weight
`1 − weight`; the derivative count is capped at the minimum of the pressure
count, the derivative count, and the observed derivative length; and the
result is empty when the observed-subset time vector is empty. -/
theorem C6_residual_layout (model : ModelFn) (lnF : ℚ → ℚ) (params : ParamMap)
    (weight : ℚ) (t obsP obsD : List ℚ) :
    (t = [] → calculateResiduals model lnF params weight t obsP obsD = []) ∧
    (t ≠ [] →
      (calculateResiduals model lnF params weight t obsP obsD).length =
        min obsP.length (model params t).2.1.length +
          min (min obsD.length (model params t).2.2.length)
            (min obsP.length (model params t).2.1.length) ∧
      (∀ i, i < min obsP.length (model params t).2.1.length →
        (calculateResiduals model lnF params weight t obsP obsD).get? i =
          some (if (1:ℚ)/10^10 < getQ obsP i ∧
              (1:ℚ)/10^10 < getQ (model params t).2.1 i
            then (lnF (getQ obsP i) - lnF (getQ (model params t).2.1 i)) * weight
            else 0)) ∧
      (∀ i, i < min (min obsD.length (model params t).2.2.length)
          (min obsP.length (model params t).2.1.length) →
        (calculateResiduals model lnF params weight t obsP obsD).get?
            (min obsP.length (model params t).2.1.length + i) =
          some (if (1:ℚ)/10^10 < getQ obsD i ∧
              (1:ℚ)/10^10 < getQ (model params t).2.2 i
            then (lnF (getQ obsD i) - lnF (getQ (model params t).2.2 i)) *
              (1 - weight)
            else 0))) := by
  constructor
  · intro h
    unfold calculateResiduals
    rw [if_pos h]
  · intro h
    unfold calculateResiduals
    rw [if_neg h]
    dsimp only
    refine ⟨by simp, ?_, ?_⟩
    · intro i hi
      rw [List.get?_append (by simpa using hi)]
      simp [List.get?_eq_getElem?, List.getElem?_map, List.getElem?_range hi]
    · intro i hi
      rw [List.get?_append_right (by simp)]
      have hidx : min obsP.length (model params t).2.1.length + i -
          (min obsP.length (model params t).2.1.length) = i := by omega
      rw [List.length_map, List.length_range, hidx]
      rw [List.get?_eq_getElem?, List.getElem?_map, List.getElem?_range hi]
      rfl

/-- C6: witness at an empty time vector and at a one-point series with a
concrete oracle. -/
theorem C6_witness :
    calculateResiduals (fun _ _ => ([1], [2], [3])) id ([] : ParamMap) (1/2)
      [] [2] [3] = [] ∧
    (calculateResiduals (fun _ _ => ([1], [2], [3])) id ([] : ParamMap) (1/2)
      [1] [2] [3]).length = min 1 1 + min (min 1 1) (min 1 1) := by
  constructor
  · exact (C6_residual_layout (fun _ _ => ([1], [2], [3])) id ([] : ParamMap)
      (1/2) [] [2] [3]).1 rfl
  · exact ((C6_residual_layout (fun _ _ => ([1], [2], [3])) id ([] : ParamMap)
      (1/2) [1] [2] [3]).2 (by simp)).1

theorem computeJacobian_entry (model : ModelFn) (lnF log10F pow10F : ℚ → ℚ)
    (params : ParamMap) (baseResiduals : List ℚ) (fitIndices : List Nat)
    (currentFitParams : List FitParameter) (weight : ℚ) (t obsP obsD : List ℚ)
    (i j : Nat) (hi : i < baseResiduals.length) (hj : j < fitIndices.length) :
    matGet (computeJacobian model lnF log10F pow10F params baseResiduals
        fitIndices currentFitParams weight t obsP obsD) i j =
      getQ (jacobianColumn model lnF log10F pow10F params baseResiduals.length
        (fitIndices.getD j 0) currentFitParams weight t obsP obsD) i := by
  unfold computeJacobian matGet
  dsimp only
  rw [List.get?_eq_getElem?, List.getElem?_map, List.getElem?_range hi]
  simp [getQ, List.get?_eq_getElem?, List.getElem?_map,
    List.getElem?_eq_getElem hj, List.getD_eq_getElem?_getD]

theorem columnGet (rPlus rMinus : List ℚ) (nRes i : Nat) (c : Prop)
    [Decidable c] (h2 : ℚ) (hi : i < nRes) :
    getQ (if c then
        (List.range nRes).map (fun k => (getQ rPlus k - getQ rMinus k) / h2)
      else List.replicate nRes 0) i =
      if c then (getQ rPlus i - getQ rMinus i) / h2 else 0 := by
  split
  · simp [getQ, List.get?_eq_getElem?, List.getElem?_map, List.getElem?_range hi]
  · simp [getQ, List.get?_eq_getElem?, List.getElem?_replicate, hi]

/-- Entry `i` of one Jacobian column, phrased with the linear-scale
exceptions in front: the parameter perturbs linearly by `1e-4` exactly when
it is named `S` or `nf` or its current value is at or below `1e-12`, and on
log scale by `0.01` in `log10` space otherwise; the central difference is
written only when both perturbed residual vectors match the base count. -/
theorem jacobianColumn_spec (model : ModelFn) (lnF log10F pow10F : ℚ → ℚ)
    (params : ParamMap) (nRes idx : Nat)
    (currentFitParams : List FitParameter) (weight : ℚ) (t obsP obsD : List ℚ)
    (i : Nat) (hi : i < nRes) :
    getQ (jacobianColumn model lnF log10F pow10F params nRes idx
        currentFitParams weight t obsP obsD) i =
      (let p := (currentFitParams.get? idx).getD default
       let val := pmGet params p.name
       let linearScale := p.name = "S" ∨ p.name = "nf" ∨ val ≤ (1:ℚ)/10^12
       let h : ℚ := if linearScale then 1/10^4 else 1/100
       let pPlus0 := pmSet params p.name
         (if linearScale then val + h else pow10F (log10F val + h))
       let pMinus0 := pmSet params p.name
         (if linearScale then val - h else pow10F (log10F val - h))
       let pPlus := if p.name = "L" ∨ p.name = "Lf" then recomputeLfD pPlus0
                    else pPlus0
       let pMinus := if p.name = "L" ∨ p.name = "Lf" then recomputeLfD pMinus0
                     else pMinus0
       let rPlus := calculateResiduals model lnF pPlus weight t obsP obsD
       let rMinus := calculateResiduals model lnF pMinus weight t obsP obsD
       if rPlus.length = nRes ∧ rMinus.length = nRes then
         (getQ rPlus i - getQ rMinus i) / (2 * h)
       else 0) := by
  unfold jacobianColumn
  dsimp only
  by_cases hls : ((currentFitParams.get? idx).getD default).name = "S" ∨
      ((currentFitParams.get? idx).getD default).name = "nf" ∨
      pmGet params ((currentFitParams.get? idx).getD default).name ≤ (1:ℚ)/10^12
  · have hnlog : ¬((1:ℚ)/10^12 <
        pmGet params ((currentFitParams.get? idx).getD default).name ∧
        ((currentFitParams.get? idx).getD default).name ≠ "S" ∧
        ((currentFitParams.get? idx).getD default).name ≠ "nf") := by
      rcases hls with h | h | h
      · exact fun hc => hc.2.1 h
      · exact fun hc => hc.2.2 h
      · exact fun hc => absurd hc.1 (not_lt.mpr h)
    simp only [if_neg hnlog, if_pos hls]
    exact columnGet _ _ nRes i _ _ hi
  · have hlog : ((1:ℚ)/10^12 <
        pmGet params ((currentFitParams.get? idx).getD default).name ∧
        ((currentFitParams.get? idx).getD default).name ≠ "S" ∧
        ((currentFitParams.get? idx).getD default).name ≠ "nf") := by
      push_neg at hls
      exact ⟨hls.2.2, hls.1, hls.2.1⟩
    simp only [if_pos hlog, if_neg hls]
    exact columnGet _ _ nRes i _ _ hi

/-- C7: confirmed.  Each Jacobian entry `J[i][j]` for free parameter `j` is
the central difference `(r_plus[i] − r_minus[i]) / (2h)` where the parameter
perturbs linearly by `h = 1e-4` exactly when it is named `S` or `nf` or its
current value is at or below `1e-12`, and otherwise on log scale with
`h = 0.01` in `log10` space (`10^(log10 v ± h)`); the column is written only
when both perturbed residual vectors have the base residual length, and
stays all-zero otherwise. -/
theorem C7_jacobian (model : ModelFn) (lnF log10F pow10F : ℚ → ℚ)
    (params : ParamMap) (baseResiduals : List ℚ) (fitIndices : List Nat)
    (currentFitParams : List FitParameter) (weight : ℚ) (t obsP obsD : List ℚ)
    (j : Nat) (hj : j < fitIndices.length) (i : Nat)
    (hi : i < baseResiduals.length) :
    matGet (computeJacobian model lnF log10F pow10F params baseResiduals
        fitIndices currentFitParams weight t obsP obsD) i j =
      (let p := (currentFitParams.get? (fitIndices.getD j 0)).getD default
       let val := pmGet params p.name
       let linearScale := p.name = "S" ∨ p.name = "nf" ∨ val ≤ (1:ℚ)/10^12
       let h : ℚ := if linearScale then 1/10^4 else 1/100
       let pPlus0 := pmSet params p.name
         (if linearScale then val + h else pow10F (log10F val + h))
       let pMinus0 := pmSet params p.name
         (if linearScale then val - h else pow10F (log10F val - h))
       let pPlus := if p.name = "L" ∨ p.name = "Lf" then recomputeLfD pPlus0
                    else pPlus0
       let pMinus := if p.name = "L" ∨ p.name = "Lf" then recomputeLfD pMinus0
                     else pMinus0
       let rPlus := calculateResiduals model lnF pPlus weight t obsP obsD
       let rMinus := calculateResiduals model lnF pMinus weight t obsP obsD
       if rPlus.length = baseResiduals.length ∧
           rMinus.length = baseResiduals.length then
         (getQ rPlus i - getQ rMinus i) / (2 * h)
       else 0) := by
  rw [computeJacobian_entry model lnF log10F pow10F params baseResiduals
    fitIndices currentFitParams weight t obsP obsD i j hi hj]
  exact jacobianColumn_spec model lnF log10F pow10F params baseResiduals.length
    (fitIndices.getD j 0) currentFitParams weight t obsP obsD i hi

/-- C7: witness at a one-residual configuration whose single free parameter
is the linear-scale exception `S`. -/
theorem C7_witness :
    matGet (computeJacobian (fun _ _ => ([1], [2], [3])) id id id [("S", 1)]
        [0] [0] [{ name := "S", value := 1, isFit := true, min := 0, max := 10 }]
        (1/2) [1] [2] [3]) 0 0 =
      (let p := (([{ name := "S", value := 1, isFit := true, min := 0, max := 10 }] :
          List FitParameter).get? 0).getD default
       let val := pmGet [("S", 1)] p.name
       let linearScale := p.name = "S" ∨ p.name = "nf" ∨ val ≤ (1:ℚ)/10^12
       let h : ℚ := if linearScale then 1/10^4 else 1/100
       let pPlus0 := pmSet [("S", 1)] p.name
         (if linearScale then val + h else id (id val + h))
       let pMinus0 := pmSet [("S", 1)] p.name
         (if linearScale then val - h else id (id val - h))
       let pPlus := if p.name = "L" ∨ p.name = "Lf" then recomputeLfD pPlus0
                    else pPlus0
       let pMinus := if p.name = "L" ∨ p.name = "Lf" then recomputeLfD pMinus0
                     else pMinus0
       let rPlus := calculateResiduals (fun _ _ => ([1], [2], [3])) id pPlus
         (1/2) [1] [2] [3]
       let rMinus := calculateResiduals (fun _ _ => ([1], [2], [3])) id pMinus
         (1/2) [1] [2] [3]
       if rPlus.length = 1 ∧ rMinus.length = 1 then
         (getQ rPlus 0 - getQ rMinus 0) / (2 * h)
       else 0) :=
  C7_jacobian (fun _ _ => ([1], [2], [3])) id id id [("S", 1)] [0] [0]
    [{ name := "S", value := 1, isFit := true, min := 0, max := 10 }]
    (1/2) [1] [2] [3] 0 (by decide) 0 (by decide)
